import Mathlib

/-!
# Verification of the bank depositor core (lab3.cpp)

Shallow embedding of the domain core of `src/lab3.cpp`:
deposit strategies (`FixedDeposit` / `NormalDeposit`), validation helpers,
the `Depositor` entity and the `Bank` registry.

Modelling conventions:
* C++ `double` amounts are modelled as rationals `ℚ` (the program only
  compares, adds and sums amounts; no float-specific behaviour is claimed).
* C++ exceptions are modelled with `Except`: a thrown exception is an
  `Except.error` value, and `try/catch` is a `match` on that value.
* The process-wide random source of `generateRandomID` is modelled by
  passing the drawn number explicitly.
* `std::string` is modelled as `String` / `List Char`.
-/

set_option maxHeartbeats 1000000

/-- The two exception classes of the program: `InvalidInputException`
(carrying a message) and `NegativeDepositException`. -/
inductive BankException where
  | invalidInput (message : String)
  | negativeDeposit
deriving DecidableEq, Repr

/-- The message of the `InvalidInputException` thrown by
`FixedDeposit::calculateDeposit` (the "amount too large" error). -/
def amountTooLargeMessage : String :=
  "The maximum deposit amount for the fixed account is 1,000,000. Please deposit less."

/-- The polymorphic deposit-strategy interface `IDeposit`, with its two
concrete implementations `FixedDeposit` and `NormalDeposit`. -/
inductive IDeposit where
  | fixedDeposit
  | normalDeposit
deriving DecidableEq, Repr

/-- `IDeposit::calculateDeposit`, dispatched on the concrete strategy:
* `FixedDeposit::calculateDeposit`: throws `InvalidInputException` when
  `amount > 1000000`, otherwise returns `amount + 100`;
* `NormalDeposit::calculateDeposit`: returns `amount`. -/
def calculateDeposit : IDeposit → ℚ → Except BankException ℚ
  | .fixedDeposit, amount =>
      if amount > 1000000 then
        .error (.invalidInput amountTooLargeMessage)
      else
        .ok (amount + 100)
  | .normalDeposit, amount => .ok amount

/-- `validateDepositAmount`: throws `NegativeDepositException` when
`amount < 0`, otherwise returns normally. -/
def validateDepositAmount (amount : ℚ) : Except BankException Unit :=
  if amount < 0 then .error .negativeDeposit else .ok ()

/-- The `Depositor` class: fields in the order of the C++ declaration
(`name`, `amount`, `depositStrategy`, `depositorID`). `amount` is the raw
balance accumulated by `deposit`. -/
structure Depositor where
  name : String
  amount : ℚ
  depositStrategy : IDeposit
  depositorID : String
deriving DecidableEq, Repr

namespace Depositor

/-- `Depositor::getDepositAmount`: applies the account's strategy to the
raw balance (the reported balance); may throw. -/
def getDepositAmount (d : Depositor) : Except BankException ℚ :=
  calculateDeposit d.depositStrategy d.amount

/-- `Depositor::getName`. -/
def getName (d : Depositor) : String := d.name

/-- `Depositor::getID`. -/
def getID (d : Depositor) : String := d.depositorID

/-- `Depositor::deposit`: validates the amount (throws
`NegativeDepositException` on negative input), then adds
`depositStrategy->calculateDeposit(amount)` to the raw balance; the
strategy may throw `InvalidInputException`.  A thrown exception leaves the
depositor unchanged (modelled by returning `Except.error`). -/
def deposit (d : Depositor) (amount : ℚ) : Except BankException Depositor := do
  validateDepositAmount amount
  let credited ← calculateDeposit d.depositStrategy amount
  pure { d with amount := d.amount + credited }

end Depositor

/-- `generateRandomID`: combines `"PZ"` with a six-digit number drawn from
the uniform distribution on `[100000, 999999]`; the draw is modelled by the
explicit argument `rnd`. -/
def generateRandomID (rnd : Nat) : String :=
  "PZ" ++ toString rnd

/-- The `Bank` class: an ordered collection of depositors. -/
structure Bank where
  depositors : List Depositor
deriving DecidableEq, Repr

namespace Bank

/-- `Bank::addDepositor`: generates an ID (draw modelled by `rnd`) and
appends a new `Depositor` with raw balance `0`. -/
def addDepositor (b : Bank) (rnd : Nat) (name : String) (strategy : IDeposit) : Bank :=
  { depositors :=
      b.depositors ++ [{ name := name, amount := 0, depositStrategy := strategy,
                         depositorID := generateRandomID rnd }] }

/-- The loop body of `Bank::depositToAccount` over the depositor list:
on the first depositor whose ID matches, calls `deposit`, catching
`InvalidInputException` (leaving the depositor unchanged) and returning
`true`; any other exception (`NegativeDepositException`) propagates.
Returns `false` when no depositor matches. -/
def depositToAccountList :
    List Depositor → String → ℚ → Except BankException (List Depositor × Bool)
  | [], _, _ => .ok ([], false)
  | d :: rest, depositorID, amount =>
      if d.depositorID == depositorID then
        match d.deposit amount with
        | .ok d2 => .ok (d2 :: rest, true)
        | .error (.invalidInput _) => .ok (d :: rest, true)
        | .error e => .error e
      else do
        let (rest2, found) ← depositToAccountList rest depositorID amount
        pure (d :: rest2, found)

/-- `Bank::depositToAccount`. -/
def depositToAccount (b : Bank) (depositorID : String) (amount : ℚ) :
    Except BankException (Bank × Bool) := do
  let (ds, found) ← depositToAccountList b.depositors depositorID amount
  pure ({ depositors := ds }, found)

/-- The accumulation loop of `Bank::calculateTotalDeposits`. -/
def totalFrom : ℚ → List Depositor → Except BankException ℚ
  | total, [] => .ok total
  | total, d :: rest => do
      totalFrom (total + (← d.getDepositAmount)) rest

/-- `Bank::calculateTotalDeposits`: sums `getDepositAmount()` over all
depositors starting from `0`; an exception thrown by any strategy
propagates and aborts the whole aggregation. -/
def calculateTotalDeposits (b : Bank) : Except BankException ℚ :=
  totalFrom 0 b.depositors

/-- `Bank::listDepositors`: reports `none` on an empty registry
("No depositors were added"), otherwise the list of
(ID, name, reported balance) tuples; a strategy exception propagates. -/
def listDepositors (b : Bank) :
    Except BankException (Option (List (String × String × ℚ))) :=
  if b.depositors.isEmpty then .ok none
  else (b.depositors.mapM
    (fun (d : Depositor) => do
      pure (d.depositorID, d.name, (← d.getDepositAmount)))).map some

end Bank

/-- The one-depositor bank of the Fixed-strategy scenario (`"Bob"` with raw
balance `0` under `FixedDeposit`, ID `"PZ222222"`). -/
def bobDepositor : Depositor := ⟨"Bob", 0, .fixedDeposit, "PZ222222"⟩

/-- A bank containing exactly `bobDepositor`. -/
def bobBank : Bank := ⟨[bobDepositor]⟩

/-- Specification-side helper for C5: the list of reported balances
(`getDepositAmount`) of the depositors, aborting at the first strategy
exception (in loop order). -/
def reportedBalances : List Depositor → Except BankException (List ℚ)
  | [] => .ok []
  | d :: rest => do
      let v ← d.getDepositAmount
      let vs ← reportedBalances rest
      pure (v :: vs)

/-- A Fixed-strategy depositor whose raw balance exceeds the ceiling, so
its reported balance throws. -/
def annDepositor : Depositor := ⟨"Ann", 2000000, .fixedDeposit, "PZ333333"⟩

/-- The character loop of `isValidName`: returns `false` at the first
non-alphabetic character (`std::isalpha`), `true` if the loop finishes. -/
def isValidNameList : List Char → Bool
  | [] => true
  | c :: rest => if !c.isAlpha then false else isValidNameList rest

/-- `isValidName`: checks that a string contains only alphabetic
characters. -/
def isValidName (name : String) : Bool :=
  isValidNameList name.data

/-- C `ispunct` on ASCII: a printable character that is neither
alphanumeric nor the space character. -/
def isPunctChar (c : Char) : Bool :=
  32 < c.toNat && c.toNat < 127 && !c.isAlphanum

/-- Pointwise non-decrease of raw balances between two bank states: the
depositor list does not shrink and every original position's raw balance
does not decrease. -/
def balanceMono (b b2 : Bank) : Prop :=
  b.depositors.length ≤ b2.depositors.length ∧
  ∀ (i : ℕ) (d d2 : Depositor), b.depositors[i]? = some d →
    b2.depositors[i]? = some d2 → d.amount ≤ d2.amount

/-- The core operations that can change the registry state.  The
read-only (`const`) operations `calculateTotalDeposits` and
`listDepositors` are included for completeness: they cannot touch the
state. -/
inductive BankOp where
  | addOp (rnd : Nat) (name : String) (strategy : IDeposit)
  | depositOp (depositorID : String) (amount : ℚ)
  | totalOp
  | listOp

/-- The bank state after one core operation.  `depositToAccount` yields
the returned state on normal return; when its exception propagates, the
depositor had not been mutated, so the state is the original one.
`calculateTotalDeposits` and `listDepositors` are `const` member
functions and leave the state unchanged. -/
def applyOp (b : Bank) : BankOp → Bank
  | .addOp rnd name strategy => b.addDepositor rnd name strategy
  | .depositOp depositorID amount =>
      match b.depositToAccount depositorID amount with
      | .ok (b2, _) => b2
      | .error _ => b
  | .totalOp => b
  | .listOp => b

/-!
## Model of `isNumeric` (`std::strtod` consumed prefix)

`isNumeric` calls `std::strtod(str.c_str(), &end)` and returns true
when the end pointer moved and lands on the NUL terminator.  Only the
end pointer matters, so the
model computes the number of characters of the longest initial subject
sequence `strtod` converts (C17 7.22.1.3): optional whitespace, optional
sign, then a decimal constant (digits with optional point and optional
`e`-exponent), a hexadecimal constant (`0x` prefix, hex digits with
optional point, optional `p`-exponent; when no hex digit follows `0x`,
only the `0` is converted), `inf`/`infinity`, or `nan` with an optional
parenthesised sequence — all case-insensitive.  When no conversion is
performed the consumed count is `0`.
-/

/-- C `isspace` in the default locale: space, `\t`, `\n`, vertical tab,
form feed, `\r`. -/
def isSpaceChar (c : Char) : Bool :=
  c == ' ' || c == '\t' || c == '\n' || c == Char.ofNat 11 ||
    c == Char.ofNat 12 || c == '\r'

/-- C `isxdigit`: a hexadecimal digit. -/
def isHexDigitChar (c : Char) : Bool :=
  c.isDigit || ('a' ≤ c && c ≤ 'f') || ('A' ≤ c && c ≤ 'F')

/-- A character of a `nan(...)` sequence: digits, letters or `_`. -/
def isNanSeqChar (c : Char) : Bool :=
  c.isAlphanum || c == '_'

/-- Length of the longest prefix whose characters all satisfy `p`. -/
def countWhile (p : Char → Bool) : List Char → Nat
  | [] => 0
  | c :: rest => if p c then countWhile p rest + 1 else 0

/-- Length (0 or 1) of an optional sign at the head of the input. -/
def signLen : List Char → Nat
  | c :: _ => if c == '+' || c == '-' then 1 else 0
  | [] => 0

/-- Length of a decimal significand (digits, optionally with one decimal
point); `none` when no digit is present. -/
def decSigLen (l : List Char) : Option Nat :=
  match l.drop (countWhile Char.isDigit l) with
  | c :: r2 =>
      if c == '.' then
        if countWhile Char.isDigit l + countWhile Char.isDigit r2 == 0 then none
        else some (countWhile Char.isDigit l + 1 + countWhile Char.isDigit r2)
      else if countWhile Char.isDigit l == 0 then none
      else some (countWhile Char.isDigit l)
  | [] =>
      if countWhile Char.isDigit l == 0 then none
      else some (countWhile Char.isDigit l)

/-- Length of a hexadecimal significand (hex digits, optionally with one
point); `none` when no hex digit is present. -/
def hexSigLen (l : List Char) : Option Nat :=
  match l.drop (countWhile isHexDigitChar l) with
  | c :: r2 =>
      if c == '.' then
        if countWhile isHexDigitChar l + countWhile isHexDigitChar r2 == 0 then none
        else some (countWhile isHexDigitChar l + 1 + countWhile isHexDigitChar r2)
      else if countWhile isHexDigitChar l == 0 then none
      else some (countWhile isHexDigitChar l)
  | [] =>
      if countWhile isHexDigitChar l == 0 then none
      else some (countWhile isHexDigitChar l)

/-- Length of an optional exponent part (`e1`/`e2` marker, optional sign,
digits); `0` when the digits are missing (the exponent is then not part
of the subject sequence). -/
def expPartLen (e1 e2 : Char) (l : List Char) : Nat :=
  match l with
  | c :: r =>
      if c == e1 || c == e2 then
        let s := signLen r
        let d := countWhile Char.isDigit (r.drop s)
        if d == 0 then 0 else 1 + s + d
      else 0
  | [] => 0

/-- Case-insensitive prefix match against a lowercase pattern. -/
def matchLowerCI : List Char → List Char → Bool
  | [], _ => true
  | _ :: _, [] => false
  | p :: ps, c :: cs => c.toLower == p && matchLowerCI ps cs

/-- Length of an optional parenthesised `nan` argument `(seq)`; `0` when
the parenthesis is absent or unclosed. -/
def nanParenLen (l : List Char) : Nat :=
  match l with
  | c :: r =>
      if c == '(' then
        let k := countWhile isNanSeqChar r
        match r.drop k with
        | c2 :: _ => if c2 == ')' then k + 2 else 0
        | [] => 0
      else 0
  | [] => 0

/-- Length of a decimal constant or `inf`/`nan` form at the head of the
input (after sign); `0` when none is present. -/
def decOrSpecialLen (l : List Char) : Nat :=
  match decSigLen l with
  | some m => m + expPartLen 'e' 'E' (l.drop m)
  | none =>
      if matchLowerCI ['i', 'n', 'f', 'i', 'n', 'i', 't', 'y'] l then 8
      else if matchLowerCI ['i', 'n', 'f'] l then 3
      else if matchLowerCI ['n', 'a', 'n'] l then 3 + nanParenLen (l.drop 3)
      else 0

/-- Length of the converted constant after the optional sign: a
hexadecimal constant when the input starts with `0x`/`0X` (falling back
to the single `0` when no hex digit follows), otherwise a decimal
constant or `inf`/`nan` form. -/
def coreLen (l : List Char) : Nat :=
  match l with
  | c0 :: x :: r =>
      if c0 == '0' && (x == 'x' || x == 'X') then
        match hexSigLen r with
        | some m => 2 + m + expPartLen 'p' 'P' (r.drop m)
        | none => 1
      else decOrSpecialLen (c0 :: x :: r)
  | l2 => decOrSpecialLen l2

/-- Number of characters `strtod` consumes from the input: leading
whitespace, optional sign and the converted constant; `0` when no
conversion is performed. -/
def strtodConsumed (l : List Char) : Nat :=
  let w := countWhile isSpaceChar l
  let l1 := l.drop w
  let s := signLen l1
  let core := coreLen (l1.drop s)
  if core == 0 then 0 else w + s + core

/-- `isNumeric` on the character list: the end pointer moved (at least
one character consumed) and the character at the end position is the
NUL terminator of the C string (or an embedded NUL byte). -/
def isNumericList (l : List Char) : Bool :=
  let n := strtodConsumed l
  n != 0 && ((l.drop n).headD (Char.ofNat 0) == Char.ofNat 0)

/-- `isNumeric`: checks that the whole string parses as a floating-point
number. -/
def isNumeric (str : String) : Bool :=
  isNumericList str.data

/-!
## Theorems for the claims
-/

/-- **C1.** For every non-negative amount `a`, the Fixed strategy returns
`a + 100` when `a ≤ 1,000,000` and throws the "amount too large"
`InvalidInputException` when `a > 1,000,000`. -/
theorem fixedDeposit_calculate_spec (a : ℚ) (_hnn : 0 ≤ a) :
    (a ≤ 1000000 → calculateDeposit .fixedDeposit a = .ok (a + 100)) ∧
    (a > 1000000 →
      calculateDeposit .fixedDeposit a = .error (.invalidInput amountTooLargeMessage)) := by
  constructor
  · intro hle
    simp [calculateDeposit, not_lt.mpr hle]
  · intro hgt
    simp [calculateDeposit, hgt]

/-- Witness for C1 at `a = 3`. -/
theorem fixedDeposit_calculate_spec_witness :
    ((3 : ℚ) ≤ 1000000 → calculateDeposit .fixedDeposit 3 = .ok (3 + 100)) ∧
    ((3 : ℚ) > 1000000 →
      calculateDeposit .fixedDeposit 3 = .error (.invalidInput amountTooLargeMessage)) :=
  fixedDeposit_calculate_spec 3 (by norm_num)

/-- **C6.** `validateDepositAmount a` throws `NegativeDepositException`
exactly when `a < 0`, and returns normally (with no other effect)
exactly when `0 ≤ a`. -/
theorem validateDepositAmount_spec (a : ℚ) :
    (validateDepositAmount a = .error .negativeDeposit ↔ a < 0) ∧
    (validateDepositAmount a = .ok () ↔ 0 ≤ a) := by
  unfold validateDepositAmount
  by_cases h : a < 0
  · simp [h, not_le.mpr h]
  · simp [h, le_of_not_lt h]

/-- **C2.** `Depositor::deposit` throws `NegativeDepositException` on a
negative amount; otherwise it computes `calculateDeposit` on the amount:
on success the transformed result is added to the raw balance and every
other field is unchanged, and on failure the strategy's exception
propagates with the depositor unchanged (no new state is produced). -/
theorem depositor_deposit_spec (d : Depositor) (a : ℚ) :
    (a < 0 → d.deposit a = .error .negativeDeposit) ∧
    (0 ≤ a → ∀ v, calculateDeposit d.depositStrategy a = .ok v →
      d.deposit a = .ok { name := d.name, amount := d.amount + v,
                          depositStrategy := d.depositStrategy,
                          depositorID := d.depositorID }) ∧
    (0 ≤ a → ∀ e, calculateDeposit d.depositStrategy a = .error e →
      d.deposit a = .error e) := by
  refine ⟨?_, ?_, ?_⟩
  · intro hneg
    simp [Depositor.deposit, validateDepositAmount, hneg, Bind.bind, Except.bind]
  · intro hnn v hv
    simp [Depositor.deposit, validateDepositAmount, not_lt.mpr hnn,
      Bind.bind, Except.bind, hv, Pure.pure, Except.pure]
  · intro hnn e he
    simp [Depositor.deposit, validateDepositAmount, not_lt.mpr hnn,
      Bind.bind, Except.bind, he]

/-- Witness for C2: a Fixed-strategy depositor with raw balance 0 and a
deposit of 200. -/
theorem depositor_deposit_spec_witness :
    ((200 : ℚ) < 0 →
      Depositor.deposit ⟨"Bob", 0, .fixedDeposit, "PZ111111"⟩ 200 = .error .negativeDeposit) ∧
    ((0 : ℚ) ≤ 200 → ∀ v, calculateDeposit IDeposit.fixedDeposit 200 = .ok v →
      Depositor.deposit ⟨"Bob", 0, .fixedDeposit, "PZ111111"⟩ 200 =
        .ok { name := "Bob", amount := 0 + v, depositStrategy := .fixedDeposit,
              depositorID := "PZ111111" }) ∧
    ((0 : ℚ) ≤ 200 → ∀ e, calculateDeposit IDeposit.fixedDeposit 200 = .error e →
      Depositor.deposit ⟨"Bob", 0, .fixedDeposit, "PZ111111"⟩ 200 = .error e) :=
  depositor_deposit_spec ⟨"Bob", 0, .fixedDeposit, "PZ111111"⟩ 200

/-!
## Helper lemmas (shared)
-/

/-- `deposit` on a negative amount throws `NegativeDepositException`. -/
theorem deposit_of_neg (d : Depositor) (a : ℚ) (h : a < 0) :
    d.deposit a = .error .negativeDeposit := by
  simp [Depositor.deposit, validateDepositAmount, h, Bind.bind, Except.bind]

/-- `deposit` on a non-negative amount whose strategy calculation succeeds
adds the credited amount to the raw balance. -/
theorem deposit_of_calc_ok (d : Depositor) (a v : ℚ) (h : 0 ≤ a)
    (hv : calculateDeposit d.depositStrategy a = .ok v) :
    d.deposit a = .ok { name := d.name, amount := d.amount + v,
                        depositStrategy := d.depositStrategy,
                        depositorID := d.depositorID } := by
  simp [Depositor.deposit, validateDepositAmount, not_lt.mpr h,
    Bind.bind, Except.bind, hv, Pure.pure, Except.pure]

/-- `deposit` on a non-negative amount whose strategy calculation throws
propagates the exception. -/
theorem deposit_of_calc_error (d : Depositor) (a : ℚ) (e : BankException) (h : 0 ≤ a)
    (he : calculateDeposit d.depositStrategy a = .error e) :
    d.deposit a = .error e := by
  simp [Depositor.deposit, validateDepositAmount, not_lt.mpr h,
    Bind.bind, Except.bind, he]

/-- The only exception `calculateDeposit` can throw is the "amount too
large" `InvalidInputException`. -/
theorem calc_error_invalid (s : IDeposit) (a : ℚ) (e : BankException)
    (he : calculateDeposit s a = .error e) :
    e = .invalidInput amountTooLargeMessage := by
  cases s <;> simp [calculateDeposit] at he
  split at he <;> simp_all

/-- Loop-level behaviour of `depositToAccountList` on a non-negative
amount: it returns normally, the boolean is whether some depositor
matches, and if the first match's strategy throws, the list is unchanged. -/
theorem depositToAccountList_spec (l : List Depositor) (id : String) (a : ℚ)
    (h : 0 ≤ a) :
    ∃ l2, Bank.depositToAccountList l id a =
        .ok (l2, l.any (fun d => d.depositorID == id)) ∧
      (∀ d, l.find? (fun d => d.depositorID == id) = some d →
        ∀ e, calculateDeposit d.depositStrategy a = .error e → l2 = l) := by
  induction l with
  | nil => exact ⟨[], by simp [Bank.depositToAccountList], by simp⟩
  | cons d rest ih =>
    by_cases hm : d.depositorID == id
    · cases hc : calculateDeposit d.depositStrategy a with
      | ok v =>
        refine ⟨{ d with amount := d.amount + v } :: rest, ?_, ?_⟩
        · simp [Bank.depositToAccountList, hm, deposit_of_calc_ok d a v h hc]
        · intro d0 hf e he
          simp [List.find?, hm] at hf
          subst hf
          rw [hc] at he
          cases he
      | error e =>
        have hei := calc_error_invalid d.depositStrategy a e hc
        subst hei
        refine ⟨d :: rest, ?_, ?_⟩
        · simp [Bank.depositToAccountList, hm, deposit_of_calc_error d a _ h hc]
        · intro d0 hf e2 he2
          rfl
    · obtain ⟨l2, hl2, hframe⟩ := ih
      refine ⟨d :: l2, ?_, ?_⟩
      · simp [Bank.depositToAccountList, hm, hl2, Bind.bind, Except.bind,
          Pure.pure, Except.pure]
      · intro d0 hf e he
        simp [List.find?, hm] at hf
        rw [hframe d0 hf e he]

/-- **C3 (counterexample).** The claim quantifies over every amount, but a
negative amount on a matching account makes `depositToAccount` throw
`NegativeDepositException` (the loop only catches `InvalidInputException`),
so the call does not return `true` even though a matching account exists. -/
theorem depositToAccount_found_iff_cex :
    List.any [Depositor.mk "Alice" 0 .normalDeposit "PZ100000"]
        (fun d => d.depositorID == "PZ100000") = true ∧
    Bank.depositToAccount ⟨[⟨"Alice", 0, .normalDeposit, "PZ100000"⟩]⟩ "PZ100000" (-1) =
      .error .negativeDeposit := by
  constructor
  · rfl
  · simp [Bank.depositToAccount, Bank.depositToAccountList,
      deposit_of_neg ⟨"Alice", 0, .normalDeposit, "PZ100000"⟩ (-1) (by norm_num),
      Bind.bind, Except.bind]

/-- **C3 (amended).** For every non-negative amount, `depositToAccount`
returns normally with `true` exactly when some account's ID matches
(`false` otherwise), and when the first matching account's strategy throws
(the "amount too large" error, the only strategy error), the exception is
caught, the bank — in particular the raw balance — is unchanged, and the
call still returns `true`. -/
theorem depositToAccount_found_spec (b : Bank) (depositorID : String) (a : ℚ)
    (h : 0 ≤ a) :
    ∃ b2 : Bank, b.depositToAccount depositorID a =
        .ok (b2, b.depositors.any (fun d => d.depositorID == depositorID)) ∧
      (∀ d, b.depositors.find? (fun d => d.depositorID == depositorID) = some d →
        ∀ e, calculateDeposit d.depositStrategy a = .error e → b2 = b) := by
  obtain ⟨l2, hl2, hframe⟩ := depositToAccountList_spec b.depositors depositorID a h
  refine ⟨⟨l2⟩, ?_, ?_⟩
  · simp [Bank.depositToAccount, hl2, Bind.bind, Except.bind, Pure.pure, Except.pure]
  · intro d hf e he
    have hl := hframe d hf e he
    cases b
    simp_all

/-- Witness for C3 (amended): the over-ceiling scenario
`depositToAccount(id2, 999999999)` on `bobBank`. -/
theorem depositToAccount_found_spec_witness :
    ∃ b2 : Bank, Bank.depositToAccount bobBank "PZ222222" 999999999 =
        .ok (b2, bobBank.depositors.any (fun d => d.depositorID == "PZ222222")) ∧
      (∀ d, bobBank.depositors.find? (fun d => d.depositorID == "PZ222222") = some d →
        ∀ e, calculateDeposit d.depositStrategy 999999999 = .error e → b2 = bobBank) :=
  depositToAccount_found_spec bobBank "PZ222222" 999999999 (by norm_num)

/-- **C4 (counterexample).** In the Fixed scenario the deposit of `200`
succeeds, but the raw balance afterwards is `300` (the strategy-transformed
credit was added), not `200` as the claim states. -/
theorem scenario_fixed_deposit_cex :
    Bank.depositToAccount bobBank "PZ222222" 200 =
      .ok (⟨[⟨"Bob", 300, .fixedDeposit, "PZ222222"⟩]⟩, true) ∧ (300 : ℚ) ≠ 200 := by
  constructor
  · have h : calculateDeposit IDeposit.fixedDeposit 200 = .ok 300 := by
      simp [calculateDeposit]; norm_num
    have hd : Depositor.deposit ⟨"Bob", 0, .fixedDeposit, "PZ222222"⟩ 200 =
        .ok ⟨"Bob", 0 + 300, .fixedDeposit, "PZ222222"⟩ :=
      deposit_of_calc_ok ⟨"Bob", 0, .fixedDeposit, "PZ222222"⟩ 200 300 (by norm_num) h
    simp [bobBank, bobDepositor, Bank.depositToAccount, Bank.depositToAccountList, hd,
      Bind.bind, Except.bind, Pure.pure, Except.pure]
  · norm_num

/-- **C4 (amended).** In the Fixed scenario (`bobBank`, deposit `200`),
`depositToAccount` returns `true` and the raw balance afterwards is `300`
(the credited amount `Fixed.calculate(200) = 300` was added to the raw
balance `0`); the reported balance recomputes `Fixed.calculate` on the raw
balance, giving `Fixed.calculate(300) = 400`. -/
theorem scenario_fixed_deposit_spec :
    Bank.depositToAccount bobBank "PZ222222" 200 =
      .ok (⟨[⟨"Bob", 300, .fixedDeposit, "PZ222222"⟩]⟩, true) ∧
    Depositor.getDepositAmount ⟨"Bob", 300, .fixedDeposit, "PZ222222"⟩ =
      calculateDeposit .fixedDeposit 300 ∧
    calculateDeposit .fixedDeposit 300 = .ok 400 := by
  refine ⟨?_, rfl, ?_⟩
  · have h : calculateDeposit IDeposit.fixedDeposit 200 = .ok 300 := by
      simp [calculateDeposit]; norm_num
    have hd : Depositor.deposit ⟨"Bob", 0, .fixedDeposit, "PZ222222"⟩ 200 =
        .ok ⟨"Bob", 0 + 300, .fixedDeposit, "PZ222222"⟩ :=
      deposit_of_calc_ok ⟨"Bob", 0, .fixedDeposit, "PZ222222"⟩ 200 300 (by norm_num) h
    simp [bobBank, bobDepositor, Bank.depositToAccount, Bank.depositToAccountList, hd,
      Bind.bind, Except.bind, Pure.pure, Except.pure]
  · simp [calculateDeposit]; norm_num

/-- The accumulation loop of `calculateTotalDeposits` computes the
initial value plus the sum of the reported balances, aborting at the
first strategy exception. -/
theorem totalFrom_eq (l : List Depositor) :
    ∀ t : ℚ, Bank.totalFrom t l =
      (reportedBalances l).map (fun vs => t + vs.sum) := by
  induction l with
  | nil =>
    intro t
    simp [Bank.totalFrom, reportedBalances, Except.map]
  | cons d rest ih =>
    intro t
    cases hd : d.getDepositAmount with
    | error e =>
      simp [Bank.totalFrom, reportedBalances, hd, Bind.bind, Except.bind, Except.map]
    | ok v =>
      simp only [Bank.totalFrom, reportedBalances, hd, Bind.bind, Except.bind,
        ih (t + v)]
      cases hrest : reportedBalances rest with
      | error e => simp [Except.map]
      | ok vs =>
        simp [Except.map, Pure.pure, Except.pure, add_assoc]

/-- If some depositor's reported balance throws, `reportedBalances`
throws as well. -/
theorem reportedBalances_error_of_mem (l : List Depositor) (d : Depositor)
    (hd : d ∈ l) (e : BankException) (he : d.getDepositAmount = .error e) :
    ∃ e2, reportedBalances l = Except.error e2 := by
  induction l with
  | nil => cases hd
  | cons a rest ih =>
    cases hd with
    | head =>
      exact ⟨e, by simp [reportedBalances, he, Bind.bind, Except.bind]⟩
    | tail _ hmem =>
      obtain ⟨e2, he2⟩ := ih hmem
      cases ha : a.getDepositAmount with
      | error e3 =>
        exact ⟨e3, by simp [reportedBalances, ha, Bind.bind, Except.bind]⟩
      | ok v =>
        exact ⟨e2, by simp [reportedBalances, ha, he2, Bind.bind, Except.bind]⟩

/-- **C5.** `calculateTotalDeposits` returns the sum of the reported
balances (`getDepositAmount`, i.e. the strategy applied to the raw
balance) over every depositor, and if any depositor's strategy throws,
the whole aggregation aborts with an exception. -/
theorem calculateTotalDeposits_spec (b : Bank) :
    b.calculateTotalDeposits = (reportedBalances b.depositors).map List.sum ∧
    (∀ d ∈ b.depositors, ∀ e, d.getDepositAmount = .error e →
      ∃ e2, b.calculateTotalDeposits = .error e2) := by
  constructor
  · rw [show b.calculateTotalDeposits = Bank.totalFrom 0 b.depositors from rfl,
      totalFrom_eq]
    cases reportedBalances b.depositors <;> simp [Except.map]
  · intro d hmem e he
    obtain ⟨e2, he2⟩ := reportedBalances_error_of_mem b.depositors d hmem e he
    refine ⟨e2, ?_⟩
    rw [show b.calculateTotalDeposits = Bank.totalFrom 0 b.depositors from rfl,
      totalFrom_eq, he2]
    simp [Except.map]

/-- Witness for C5: on a bank containing `annDepositor` the aggregation
aborts with an exception. -/
theorem calculateTotalDeposits_spec_witness :
    ∃ e2, Bank.calculateTotalDeposits ⟨[annDepositor]⟩ = .error e2 :=
  (calculateTotalDeposits_spec ⟨[annDepositor]⟩).2 annDepositor (by simp)
    (.invalidInput amountTooLargeMessage)
    (by norm_num [annDepositor, Depositor.getDepositAmount, calculateDeposit])

/-- A decimal digit is not an alphabetic character. -/
theorem not_alpha_of_digit (c : Char) (h : c.isDigit = true) : c.isAlpha = false := by
  simp [Char.isDigit, Char.isAlpha, Char.isUpper, Char.isLower,
    UInt32.le_def, BitVec.le_def] at h ⊢
  omega

/-- A punctuation character is not an alphabetic character. -/
theorem not_alpha_of_punct (c : Char) (h : isPunctChar c = true) : c.isAlpha = false := by
  simp [isPunctChar, Char.isAlphanum] at h
  exact h.2.1

/-- The loop of `isValidName` accepts exactly the all-alphabetic strings. -/
theorem isValidNameList_iff (l : List Char) :
    isValidNameList l = true ↔ ∀ c ∈ l, c.isAlpha = true := by
  induction l with
  | nil => simp [isValidNameList]
  | cons c rest ih =>
    by_cases hc : c.isAlpha = true
    · simp [isValidNameList, hc, ih]
    · simp [isValidNameList, Bool.eq_false_iff.mpr hc]

/-- **C7.** `isValidName` returns `true` exactly when every character of
the string is an alphabetic letter; in particular it returns `false` for
any string containing a digit, the space character, or a punctuation
character, and returns `true` on the empty string. -/
theorem isValidName_spec :
    (∀ s : String, isValidName s = true ↔ ∀ c ∈ s.data, c.isAlpha = true) ∧
    (∀ s : String, ∀ c ∈ s.data,
      (c.isDigit = true ∨ c = ' ' ∨ isPunctChar c = true) → isValidName s = false) ∧
    isValidName "" = true := by
  refine ⟨fun s => isValidNameList_iff s.data, ?_, rfl⟩
  intro s c hmem hbad
  cases hv : isValidName s with
  | false => rfl
  | true =>
    have halpha := (isValidNameList_iff s.data).mp hv c hmem
    rcases hbad with hd | hsp | hp
    · rw [not_alpha_of_digit c hd] at halpha
      cases halpha
    · subst hsp
      cases halpha
    · rw [not_alpha_of_punct c hp] at halpha
      cases halpha

/-- Witness for C7: `"ab1"` contains the digit `'1'`, so it is rejected. -/
theorem isValidName_spec_witness : isValidName "ab1" = false :=
  isValidName_spec.2.1 "ab1" '1' (by decide) (Or.inl (by decide))

/-- A strategy calculation that succeeds on a non-negative amount returns a
non-negative credit. -/
theorem calc_ok_nonneg (s : IDeposit) (a v : ℚ) (ha : 0 ≤ a)
    (h : calculateDeposit s a = .ok v) : 0 ≤ v := by
  cases s
  · by_cases hgt : a > 1000000
    · simp [calculateDeposit, hgt] at h
    · simp [calculateDeposit, hgt] at h
      rw [← h]
      linarith
  · simp [calculateDeposit] at h
    rw [← h]
    exact ha

/-- A successful `deposit` keeps the name, strategy and ID, and does not
decrease the raw balance. -/
theorem deposit_ok_inv (d d2 : Depositor) (a : ℚ) (h : d.deposit a = .ok d2) :
    d2.name = d.name ∧ d2.depositStrategy = d.depositStrategy ∧
    d2.depositorID = d.depositorID ∧ d.amount ≤ d2.amount := by
  by_cases ha : a < 0
  · rw [deposit_of_neg d a ha] at h
    cases h
  · have ha2 : 0 ≤ a := le_of_not_lt ha
    cases hc : calculateDeposit d.depositStrategy a with
    | error e =>
      rw [deposit_of_calc_error d a e ha2 hc] at h
      cases h
    | ok v =>
      rw [deposit_of_calc_ok d a v ha2 hc] at h
      cases h
      have hv := calc_ok_nonneg d.depositStrategy a v ha2 hc
      refine ⟨rfl, rfl, rfl, ?_⟩
      show d.amount ≤ d.amount + v
      linarith

/-- Frame property of the `depositToAccount` loop: on normal return the
list keeps its length and order, every depositor keeps its ID, name and
strategy, no raw balance decreases, and a depositor that does not match
the looked-up ID — or is preceded by an earlier match — is completely
unchanged. -/
theorem depositToAccountList_frame (depositorID : String) (a : ℚ)
    (l l2 : List Depositor) (found : Bool)
    (h : Bank.depositToAccountList l depositorID a = .ok (l2, found)) :
    l2.length = l.length ∧
    ∀ (i : ℕ) (d : Depositor), l[i]? = some d →
      ∃ d2 : Depositor, l2[i]? = some d2 ∧
        d2.name = d.name ∧ d2.depositStrategy = d.depositStrategy ∧
        d2.depositorID = d.depositorID ∧ d.amount ≤ d2.amount ∧
        (((d.depositorID == depositorID) = false ∨
          ∃ j, j < i ∧ ∃ dj : Depositor, l[j]? = some dj ∧
            (dj.depositorID == depositorID) = true) → d2 = d) := by
  induction l generalizing l2 found with
  | nil =>
    simp only [Bank.depositToAccountList] at h
    injection h with h
    injection h with h1 h2
    subst h1
    refine ⟨rfl, ?_⟩
    intro i d hd
    simp at hd
  | cons d0 rest ih =>
    simp only [Bank.depositToAccountList] at h
    by_cases hm : (d0.depositorID == depositorID) = true
    · rw [if_pos hm] at h
      cases hdep : d0.deposit a with
      | ok dd =>
        rw [hdep] at h
        injection h with h
        injection h with h1 h2
        subst h1
        obtain ⟨hn, hs, hi, hle⟩ := deposit_ok_inv d0 dd a hdep
        refine ⟨by simp, ?_⟩
        intro i d hd
        cases i with
        | zero =>
          simp only [List.getElem?_cons_zero, Option.some.injEq] at hd
          subst hd
          refine ⟨dd, by simp, hn, hs, hi, hle, ?_⟩
          rintro (hfalse | ⟨j, hj, _⟩)
          · rw [hm] at hfalse
            cases hfalse
          · omega
        | succ i2 =>
          simp only [List.getElem?_cons_succ] at hd ⊢
          exact ⟨d, hd, rfl, rfl, rfl, le_refl _, fun _ => rfl⟩
      | error e =>
        cases e with
        | invalidInput m =>
          rw [hdep] at h
          injection h with h
          injection h with h1 h2
          subst h1
          refine ⟨rfl, ?_⟩
          intro i d hd
          exact ⟨d, hd, rfl, rfl, rfl, le_refl _, fun _ => rfl⟩
        | negativeDeposit =>
          rw [hdep] at h
          simp at h
    · rw [if_neg hm] at h
      cases hrec : Bank.depositToAccountList rest depositorID a with
      | error e =>
        rw [hrec] at h
        simp [Bind.bind, Except.bind] at h
      | ok p =>
        obtain ⟨rest2, f2⟩ := p
        rw [hrec] at h
        simp only [Bind.bind, Except.bind, Pure.pure, Except.pure] at h
        injection h with h
        injection h with h1 h2
        subst h1
        obtain ⟨hlen, hframe⟩ := ih rest2 f2 hrec
        refine ⟨by simp [hlen], ?_⟩
        intro i d hd
        cases i with
        | zero =>
          simp only [List.getElem?_cons_zero, Option.some.injEq] at hd
          subst hd
          exact ⟨d0, by simp, rfl, rfl, rfl, le_refl _, fun _ => rfl⟩
        | succ i2 =>
          simp only [List.getElem?_cons_succ] at hd ⊢
          obtain ⟨d2, hd2, hn, hs, hi, hle, hunch⟩ := hframe i2 d hd
          refine ⟨d2, hd2, hn, hs, hi, hle, ?_⟩
          rintro (hfalse | ⟨j, hj, dj, hdj, hdjm⟩)
          · exact hunch (Or.inl hfalse)
          · cases j with
            | zero =>
              simp only [List.getElem?_cons_zero, Option.some.injEq] at hdj
              subst hdj
              rw [hdjm] at hm
              cases hm rfl
            | succ j2 =>
              simp only [List.getElem?_cons_succ] at hdj
              exact hunch (Or.inr ⟨j2, by omega, dj, hdj, hdjm⟩)

/-- Bank-level frame property of `depositToAccount` (shared helper): on
normal return the depositor count and order are preserved, every
depositor keeps its ID, name and strategy, no raw balance decreases, and
any depositor that does not match the ID — or is preceded by an earlier
match — is completely unchanged. -/
theorem depositToAccount_ok_inv (b : Bank) (depositorID : String) (a : ℚ)
    (b2 : Bank) (found : Bool)
    (h : b.depositToAccount depositorID a = .ok (b2, found)) :
    b2.depositors.length = b.depositors.length ∧
    ∀ (i : ℕ) (d : Depositor), b.depositors[i]? = some d →
      ∃ d2 : Depositor, b2.depositors[i]? = some d2 ∧
        d2.name = d.name ∧ d2.depositStrategy = d.depositStrategy ∧
        d2.depositorID = d.depositorID ∧ d.amount ≤ d2.amount ∧
        (((d.depositorID == depositorID) = false ∨
          ∃ j, j < i ∧ ∃ dj : Depositor, b.depositors[j]? = some dj ∧
            (dj.depositorID == depositorID) = true) → d2 = d) := by
  simp only [Bank.depositToAccount, Bind.bind, Except.bind] at h
  cases hl : Bank.depositToAccountList b.depositors depositorID a with
  | error e =>
    rw [hl] at h
    cases h
  | ok p =>
    obtain ⟨ds, f⟩ := p
    rw [hl] at h
    simp only [Pure.pure, Except.pure] at h
    injection h with h
    injection h with hb hf
    subst hb
    exact depositToAccountList_frame depositorID a b.depositors ds f hl

/-- **C10.** `depositToAccount` modifies at most the raw balance of the
first account (in insertion order) whose identifier matches: on normal
return the depositor count is unchanged (no account added or removed),
every account keeps its identifier, name and strategy at its original
position (insertion order preserved), and any account that does not match
the identifier — or, when several accounts share the identifier, is
preceded by an earlier match — is completely unchanged, raw balance
included. -/
theorem depositToAccount_frame_spec (b : Bank) (depositorID : String) (a : ℚ)
    (b2 : Bank) (found : Bool)
    (h : b.depositToAccount depositorID a = .ok (b2, found)) :
    b2.depositors.length = b.depositors.length ∧
    ∀ (i : ℕ) (d : Depositor), b.depositors[i]? = some d →
      ∃ d2 : Depositor, b2.depositors[i]? = some d2 ∧
        d2.name = d.name ∧ d2.depositStrategy = d.depositStrategy ∧
        d2.depositorID = d.depositorID ∧
        (((d.depositorID == depositorID) = false ∨
          ∃ j, j < i ∧ ∃ dj : Depositor, b.depositors[j]? = some dj ∧
            (dj.depositorID == depositorID) = true) → d2 = d) := by
  obtain ⟨hlen, hframe⟩ := depositToAccount_ok_inv b depositorID a b2 found h
  refine ⟨hlen, ?_⟩
  intro i d hd
  obtain ⟨d2, hd2, hn, hs, hi, _, hunch⟩ := hframe i d hd
  exact ⟨d2, hd2, hn, hs, hi, hunch⟩

/-- `balanceMono` is reflexive. -/
theorem balanceMono_refl (b : Bank) : balanceMono b b := by
  refine ⟨le_refl _, ?_⟩
  intro i d d2 h1 h2
  rw [h1] at h2
  injection h2 with h2
  rw [h2]

/-- `balanceMono` is transitive. -/
theorem balanceMono_trans (b1 b2 b3 : Bank) (h12 : balanceMono b1 b2)
    (h23 : balanceMono b2 b3) : balanceMono b1 b3 := by
  obtain ⟨hl12, hm12⟩ := h12
  obtain ⟨hl23, hm23⟩ := h23
  refine ⟨le_trans hl12 hl23, ?_⟩
  intro i d d3 h1 h3
  obtain ⟨hlt, _⟩ := List.getElem?_eq_some.mp h1
  have hlt2 : i < b2.depositors.length := lt_of_lt_of_le hlt hl12
  have h2 : b2.depositors[i]? = some (b2.depositors[i]) :=
    List.getElem?_eq_getElem hlt2
  exact le_trans (hm12 i d _ h1 h2) (hm23 i _ d3 h2 h3)

/-- Every single core operation leaves raw balances non-decreasing. -/
theorem applyOp_mono (b : Bank) (op : BankOp) : balanceMono b (applyOp b op) := by
  cases op with
  | addOp rnd nm strategy =>
    refine ⟨by simp [applyOp, Bank.addDepositor], ?_⟩
    intro i d d2 h1 h2
    obtain ⟨hlt, _⟩ := List.getElem?_eq_some.mp h1
    simp only [applyOp, Bank.addDepositor] at h2
    rw [List.getElem?_append_left hlt] at h2
    rw [h1] at h2
    injection h2 with h2
    rw [h2]
  | depositOp depositorID amount =>
    show balanceMono b (match b.depositToAccount depositorID amount with
      | .ok (b2, _) => b2
      | .error _ => b)
    cases hres : b.depositToAccount depositorID amount with
    | ok p =>
      obtain ⟨b2, f⟩ := p
      obtain ⟨hlen, hframe⟩ := depositToAccount_ok_inv b depositorID amount b2 f hres
      refine ⟨le_of_eq hlen.symm, ?_⟩
      intro i d d2 h1 h2
      obtain ⟨d2x, hd2x, _, _, _, hle, _⟩ := hframe i d h1
      rw [hd2x] at h2
      injection h2 with h2
      rw [← h2]
      exact hle
    | error e => exact balanceMono_refl b
  | totalOp => exact balanceMono_refl b
  | listOp => exact balanceMono_refl b

/-- **C9.** Every account is created with raw balance `0` by
`addDepositor` (which appends it, leaving existing accounts alone), and
across every sequence of core operations (`addDepositor`,
`depositToAccount` — hence `deposit` —, `calculateTotalDeposits`,
`listDepositors`) no account's raw balance ever decreases. -/
theorem balances_start_zero_and_nonDecreasing :
    (∀ (b : Bank) (rnd : Nat) (nm : String) (strategy : IDeposit),
      (b.addDepositor rnd nm strategy).depositors =
        b.depositors ++ [⟨nm, 0, strategy, generateRandomID rnd⟩]) ∧
    (∀ (b : Bank) (ops : List BankOp), balanceMono b (List.foldl applyOp b ops)) := by
  constructor
  · intro b rnd nm strategy
    rfl
  · intro b ops
    induction ops generalizing b with
    | nil => exact balanceMono_refl b
    | cons op ops ih =>
      exact balanceMono_trans b (applyOp b op) (List.foldl applyOp (applyOp b op) ops)
        (applyOp_mono b op) (ih (applyOp b op))

/-- Witness for C9: a deposit followed by an account creation on
`bobBank` keeps raw balances non-decreasing. -/
theorem balances_start_zero_and_nonDecreasing_witness :
    balanceMono bobBank (List.foldl applyOp bobBank
      [BankOp.depositOp "PZ222222" 200, BankOp.addOp 123456 "Alice" .normalDeposit]) :=
  balances_start_zero_and_nonDecreasing.2 bobBank
    [BankOp.depositOp "PZ222222" 200, BankOp.addOp 123456 "Alice" .normalDeposit]

/-- Witness for C10: the successful deposit of `200` to `bobBank`
preserves count, order, identifiers, names and strategies. -/
theorem depositToAccount_frame_spec_witness :
    (Bank.mk [⟨"Bob", 300, .fixedDeposit, "PZ222222"⟩]).depositors.length =
      bobBank.depositors.length ∧
    ∀ (i : ℕ) (d : Depositor), bobBank.depositors[i]? = some d →
      ∃ d2 : Depositor,
        (Bank.mk [⟨"Bob", 300, .fixedDeposit, "PZ222222"⟩]).depositors[i]? = some d2 ∧
        d2.name = d.name ∧ d2.depositStrategy = d.depositStrategy ∧
        d2.depositorID = d.depositorID ∧
        (((d.depositorID == "PZ222222") = false ∨
          ∃ j, j < i ∧ ∃ dj : Depositor, bobBank.depositors[j]? = some dj ∧
            (dj.depositorID == "PZ222222") = true) → d2 = d) :=
  depositToAccount_frame_spec bobBank "PZ222222" 200
    ⟨[⟨"Bob", 300, .fixedDeposit, "PZ222222"⟩]⟩ true (by
      have h : calculateDeposit IDeposit.fixedDeposit 200 = .ok 300 := by
        simp [calculateDeposit]; norm_num
      have hd : Depositor.deposit ⟨"Bob", 0, .fixedDeposit, "PZ222222"⟩ 200 =
          .ok ⟨"Bob", 0 + 300, .fixedDeposit, "PZ222222"⟩ :=
        deposit_of_calc_ok ⟨"Bob", 0, .fixedDeposit, "PZ222222"⟩ 200 300 (by norm_num) h
      simp [bobBank, bobDepositor, Bank.depositToAccount, Bank.depositToAccountList, hd,
        Bind.bind, Except.bind, Pure.pure, Except.pure])

/-- `countWhile` never counts past the end of the input. -/
theorem countWhile_le (p : Char → Bool) (l : List Char) :
    countWhile p l ≤ l.length := by
  induction l with
  | nil => simp [countWhile]
  | cons c rest ih =>
    simp only [countWhile, List.length_cons]
    split <;> omega

/-- `signLen` never counts past the end of the input. -/
theorem signLen_le (l : List Char) : signLen l ≤ l.length := by
  cases l with
  | nil => simp [signLen]
  | cons c r =>
    simp only [signLen, List.length_cons]
    split <;> omega

/-- `decSigLen` never counts past the end of the input. -/
theorem decSigLen_le (l : List Char) (m : Nat) (h : decSigLen l = some m) :
    m ≤ l.length := by
  unfold decSigLen at h
  have hd1 := countWhile_le Char.isDigit l
  cases hdrop : l.drop (countWhile Char.isDigit l) with
  | nil =>
    rw [hdrop] at h
    by_cases h0 : (countWhile Char.isDigit l == 0) = true
    · simp [h0] at h
    · simp [h0] at h
      omega
  | cons c r2 =>
    rw [hdrop] at h
    have hlen : l.length - countWhile Char.isDigit l = r2.length + 1 := by
      have hc := congrArg List.length hdrop
      simpa [List.length_drop] using hc
    by_cases hc : (c == '.') = true
    · have hd2 := countWhile_le Char.isDigit r2
      simp only [hc, if_true] at h
      by_cases h0 :
          (countWhile Char.isDigit l + countWhile Char.isDigit r2 == 0) = true
      · simp [h0] at h
      · simp [h0] at h
        omega
    · simp only [hc, if_false] at h
      by_cases h0 : (countWhile Char.isDigit l == 0) = true
      · simp [h0] at h
      · simp [h0] at h
        omega

/-- `hexSigLen` never counts past the end of the input. -/
theorem hexSigLen_le (l : List Char) (m : Nat) (h : hexSigLen l = some m) :
    m ≤ l.length := by
  unfold hexSigLen at h
  have hd1 := countWhile_le isHexDigitChar l
  cases hdrop : l.drop (countWhile isHexDigitChar l) with
  | nil =>
    rw [hdrop] at h
    by_cases h0 : (countWhile isHexDigitChar l == 0) = true
    · simp [h0] at h
    · simp [h0] at h
      omega
  | cons c r2 =>
    rw [hdrop] at h
    have hlen : l.length - countWhile isHexDigitChar l = r2.length + 1 := by
      have hc := congrArg List.length hdrop
      simpa [List.length_drop] using hc
    by_cases hc : (c == '.') = true
    · have hd2 := countWhile_le isHexDigitChar r2
      simp only [hc, if_true] at h
      by_cases h0 :
          (countWhile isHexDigitChar l + countWhile isHexDigitChar r2 == 0) = true
      · simp [h0] at h
      · simp [h0] at h
        omega
    · simp only [hc, if_false] at h
      by_cases h0 : (countWhile isHexDigitChar l == 0) = true
      · simp [h0] at h
      · simp [h0] at h
        omega

/-- `expPartLen` never counts past the end of the input. -/
theorem expPartLen_le (e1 e2 : Char) (l : List Char) :
    expPartLen e1 e2 l ≤ l.length := by
  cases l with
  | nil => simp [expPartLen]
  | cons c r =>
    simp only [expPartLen, List.length_cons]
    split
    · have hs := signLen_le r
      have hd := countWhile_le Char.isDigit (r.drop (signLen r))
      rw [List.length_drop] at hd
      split <;> omega
    · omega

/-- A case-insensitive prefix match needs at least the pattern's length. -/
theorem matchLowerCI_length (ps l : List Char) (h : matchLowerCI ps l = true) :
    ps.length ≤ l.length := by
  induction ps generalizing l with
  | nil => simp
  | cons p ps ih =>
    cases l with
    | nil => simp [matchLowerCI] at h
    | cons c cs =>
      simp only [matchLowerCI, Bool.and_eq_true] at h
      simpa using ih cs h.2

/-- `nanParenLen` never counts past the end of the input. -/
theorem nanParenLen_le (l : List Char) : nanParenLen l ≤ l.length := by
  cases l with
  | nil => simp [nanParenLen]
  | cons c r =>
    simp only [nanParenLen, List.length_cons]
    split
    · have hk := countWhile_le isNanSeqChar r
      cases hdrop : r.drop (countWhile isNanSeqChar r) with
      | nil => simp
      | cons c2 t =>
        have hlen : r.length - countWhile isNanSeqChar r = t.length + 1 := by
          have hc := congrArg List.length hdrop
          simpa [List.length_drop] using hc
        dsimp only
        split <;> omega
    · omega

/-- `decOrSpecialLen` never counts past the end of the input. -/
theorem decOrSpecialLen_le (l : List Char) : decOrSpecialLen l ≤ l.length := by
  unfold decOrSpecialLen
  cases hd : decSigLen l with
  | some m =>
    have h1 := decSigLen_le l m hd
    have h2 := expPartLen_le 'e' 'E' (l.drop m)
    rw [List.length_drop] at h2
    dsimp only
    omega
  | none =>
    dsimp only
    by_cases h8 : matchLowerCI ['i', 'n', 'f', 'i', 'n', 'i', 't', 'y'] l = true
    · have h8l := matchLowerCI_length _ l h8
      simp only [List.length_cons, List.length_nil] at h8l
      simp [h8]
      omega
    · by_cases h3 : matchLowerCI ['i', 'n', 'f'] l = true
      · have h3l := matchLowerCI_length _ l h3
        simp only [List.length_cons, List.length_nil] at h3l
        simp [h8, h3]
        omega
      · by_cases hn : matchLowerCI ['n', 'a', 'n'] l = true
        · have hnl := matchLowerCI_length _ l hn
          simp only [List.length_cons, List.length_nil] at hnl
          have hp := nanParenLen_le (l.drop 3)
          rw [List.length_drop] at hp
          simp [h8, h3, hn]
          omega
        · simp [h8, h3, hn]

/-- `coreLen` never counts past the end of the input. -/
theorem coreLen_le (l : List Char) : coreLen l ≤ l.length := by
  cases l with
  | nil => simpa [coreLen] using decOrSpecialLen_le []
  | cons c0 l1 =>
    cases l1 with
    | nil => simpa [coreLen] using decOrSpecialLen_le [c0]
    | cons x r =>
      simp only [coreLen, List.length_cons]
      split
      · cases hh : hexSigLen r with
        | some m =>
          have h1 := hexSigLen_le r m hh
          have h2 := expPartLen_le 'p' 'P' (r.drop m)
          rw [List.length_drop] at h2
          dsimp only
          omega
        | none =>
          dsimp only
          omega
      · have hds := decOrSpecialLen_le (c0 :: x :: r)
        simpa using hds

/-- `strtodConsumed` never counts past the end of the input. -/
theorem strtodConsumed_le (l : List Char) : strtodConsumed l ≤ l.length := by
  simp only [strtodConsumed]
  have hw := countWhile_le isSpaceChar l
  have hs := signLen_le (l.drop (countWhile isSpaceChar l))
  have hc := coreLen_le
    ((l.drop (countWhile isSpaceChar l)).drop
      (signLen (l.drop (countWhile isSpaceChar l))))
  rw [List.length_drop] at hs
  rw [List.length_drop, List.length_drop] at hc
  split <;> omega

/-- **C8.** For every NUL-free string, `isNumeric` returns `true` exactly
when `strtod` consumes the entire string (no trailing non-numeric
characters) and consumes at least one character; in particular
`isNumeric "12.5"` is `true`, `isNumeric "12.5a"` is `false` and
`isNumeric ""` is `false`. -/
theorem isNumeric_spec :
    (∀ l : List Char, Char.ofNat 0 ∉ l →
      (isNumericList l = true ↔
        (strtodConsumed l = l.length ∧ 0 < strtodConsumed l))) ∧
    isNumeric "12.5" = true ∧ isNumeric "12.5a" = false ∧
    isNumeric "" = false := by
  refine ⟨?_, by decide, by decide, by decide⟩
  intro l hnul
  have hle := strtodConsumed_le l
  unfold isNumericList
  simp only [Bool.and_eq_true, bne_iff_ne, ne_eq, beq_iff_eq]
  constructor
  · rintro ⟨hn0, hnul2⟩
    have heq : strtodConsumed l = l.length := by
      by_contra hne
      have hlt : strtodConsumed l < l.length := lt_of_le_of_ne hle hne
      cases hdrop : l.drop (strtodConsumed l) with
      | nil =>
        have hc := congrArg List.length hdrop
        simp [List.length_drop] at hc
        omega
      | cons c t =>
        rw [hdrop] at hnul2
        simp only [List.headD] at hnul2
        apply hnul
        rw [← hnul2]
        exact List.drop_subset _ l (by rw [hdrop]; exact List.mem_cons_self c t)
    exact ⟨heq, Nat.pos_of_ne_zero hn0⟩
  · rintro ⟨heq, hpos⟩
    refine ⟨Nat.pos_iff_ne_zero.mp hpos, ?_⟩
    rw [heq, List.drop_length]
    rfl

/-- Witness for C8 at the NUL-free string `"12.5"`. -/
theorem isNumeric_spec_witness :
    isNumericList "12.5".data = true ↔
      (strtodConsumed "12.5".data = "12.5".data.length ∧
        0 < strtodConsumed "12.5".data) :=
  isNumeric_spec.1 "12.5".data (by decide)
